import Mathlib

/-!
# Verification of the prost length-delimited bytes/string field codec

Shallow embedding of `src/encoding/bytes.rs`, `src/encoding/string.rs` and
`src/bytestring.rs`.  Byte buffers and cursors are modelled as `List Nat`
(each element one `u8`; interpretive operations reduce modulo 256), with the
cursor position represented by consuming the front of the list.  Machine
integers are `Nat` with explicit `% 2 ^ 64` where `u64` overflow matters.

The varint and field-key primitives, the `BytesAdapter` trait and the
`length_delimited!` macro live in the crate's `encoding.rs`, which is not part
of the provided sources; they are modelled from the spec (§4.4, §6) and are
marked `Modelled from the spec:` below.  `str::from_utf8` is the Rust standard
library's UTF-8 validator, embedded here as `utf8_valid`.
-/

namespace ProstCodec

/-- Wire types of the protocol (`WireType` in `encoding.rs`, per spec §3:
{Varint, 64-bit, LengthDelimited, StartGroup, EndGroup, 32-bit}). -/
inductive WireType where
  | varint
  | sixtyFourBit
  | lengthDelimited
  | startGroup
  | endGroup
  | thirtyTwoBit
deriving DecidableEq, Repr

/-- Numeric value of a wire type, as stored in the low 3 bits of a field key. -/
def WireType.toNat : WireType → Nat
  | .varint => 0
  | .sixtyFourBit => 1
  | .lengthDelimited => 2
  | .startGroup => 3
  | .endGroup => 4
  | .thirtyTwoBit => 5

/-- The error taxonomy of spec §7.  The source's `DecodeError` carries a
description string ("invalid wire type", "invalid varint", "buffer underflow",
"invalid string value: data is not UTF-8 encoded"); we model the four kinds. -/
inductive DecodeError where
  | wireTypeMismatch
  | malformedVarint
  | bufferUnderflow
  | invalidUtf8
deriving DecidableEq, Repr

/-- Modelled from the spec: `encode_varint` (§4.4 external collaborator;
glossary: "a variable-length encoding of an unsigned integer using 7 payload
bits per byte with a continuation bit"). Low 7 bits first; every byte except
the last has the continuation bit 0x80 set. -/
def encode_varint (n : Nat) : List Nat :=
  if n < 128 then [n] else (n % 128 + 128) :: encode_varint (n / 128)
termination_by n
decreasing_by exact Nat.div_lt_self (by omega) (by omega)

/-- Modelled from the spec: the loop of `decode_varint` (§4.4).  Reads at most
10 bytes (a `u64` needs at most ⌈64/7⌉ = 10 groups); accumulates 7 payload bits
per byte; the `u64` accumulator truncates to 64 bits; fails (`none`, the
`Malformed` case) if the input ends or the 10-byte budget is exhausted before a
byte without the continuation bit. -/
def decode_varint_loop : List Nat → Nat → Nat → Option (Nat × List Nat)
  | [], _, _ => none
  | b :: rest, count, acc =>
    if 10 ≤ count then none
    else if b % 256 < 128 then
      some ((acc + b % 128 * 128 ^ count) % 2 ^ 64, rest)
    else decode_varint_loop rest (count + 1) (acc + b % 128 * 128 ^ count)

/-- Modelled from the spec: `decode_varint(input) -> Result<u64, DecodeError>`
(§4.4). `none` stands for the `Malformed` error. -/
def decode_varint (buf : List Nat) : Option (Nat × List Nat) :=
  decode_varint_loop buf 0 0

/-- Modelled from the spec: `encode_field_key(tag, wire_type, out)` (§4.4);
the key is the varint of `tag << 3 | wire_type` (§3, glossary). The valid tag
range 1..=2^29-1 is enforced by the key encoder (spec §4.1). -/
def encode_key (tag : Nat) (wt : WireType) : List Nat :=
  encode_varint (tag * 8 + wt.toNat)

/-- Result of one `merge` call: the error if any (`none` = success), the
destination value's content after the call, and the unread remainder of the
input cursor. -/
structure MergeResult where
  err : Option DecodeError
  value : List Nat
  buf : List Nat
deriving DecidableEq, Repr

/-- `bytes::merge` from `src/encoding/bytes.rs` lines 13–45, generic over
`BytesAdapter` destinations, which we model by their byte content (the spec's
`BufferAdapter` replace is content-wise the bytes taken from the cursor,
whether implemented as a copy or zero-copy).  Checks the wire type, decodes
the length varint, bounds-checks `len` against the remaining input, and
replaces the destination's entire content with `buf.take(len)`. -/
def bytes_merge (wire_type : WireType) (value buf : List Nat) : MergeResult :=
  if wire_type ≠ WireType.lengthDelimited then
    ⟨some DecodeError.wireTypeMismatch, value, buf⟩
  else
    match decode_varint buf with
    | none => ⟨some DecodeError.malformedVarint, value, buf⟩
    | some (len, rest) =>
      if rest.length < len then ⟨some DecodeError.bufferUnderflow, value, rest⟩
      else ⟨none, rest.take len, rest.drop len⟩

/-- `bytes::encode` from `src/encoding/bytes.rs` lines 3–11: field key, varint
of `value.len()`, then the raw bytes. -/
def bytes_encode (tag : Nat) (value : List Nat) : List Nat :=
  encode_key tag WireType.lengthDelimited ++ (encode_varint value.length ++ value)

/-- Is `b` (mod 256) a UTF-8 continuation byte (0x80..=0xBF)? -/
def utf8_cont (b : Nat) : Bool :=
  128 ≤ b % 256 && b % 256 < 192

/-- Allowed range of the byte after a multi-byte lead, per lead byte: 0xE0
requires 0xA0..=0xBF, 0xED requires 0x80..=0x9F (no surrogates), 0xF0 requires
0x90..=0xBF, 0xF4 requires 0x80..=0x8F (≤ U+10FFFF); otherwise any
continuation byte. -/
def utf8_second (lead c : Nat) : Bool :=
  if lead = 224 then 160 ≤ c % 256 && c % 256 < 192
  else if lead = 237 then 128 ≤ c % 256 && c % 256 < 160
  else if lead = 240 then 144 ≤ c % 256 && c % 256 < 192
  else if lead = 244 then 128 ≤ c % 256 && c % 256 < 144
  else utf8_cont c

/-- The Rust standard library's `str::from_utf8` validation (external to the
repository), embedded as a boolean predicate over byte lists: ASCII bytes
stand alone; leads 0xC2..=0xDF take one continuation byte; 0xE0..=0xEF take
two (with the `utf8_second` restriction); 0xF0..=0xF4 take three; everything
else (stray continuation bytes, overlong leads 0xC0/0xC1, leads above 0xF4)
is invalid. -/
def utf8_valid : List Nat → Bool
  | [] => true
  | b :: rest =>
    if b % 256 < 128 then utf8_valid rest
    else if b % 256 < 194 then false
    else if b % 256 < 224 then
      match rest with
      | c :: r => utf8_cont c && utf8_valid r
      | [] => false
    else if b % 256 < 240 then
      match rest with
      | c :: d :: r => utf8_second (b % 256) c && utf8_cont d && utf8_valid r
      | _ => false
    else if b % 256 < 245 then
      match rest with
      | c :: d :: e :: r =>
          utf8_second (b % 256) c && utf8_cont d && utf8_cont e && utf8_valid r
      | _ => false
    else false

/-- `string::merge` from `src/encoding/string.rs` lines 64–109, generic over
`StringAdapter` destinations modelled by their byte content.  A drop guard is
armed over the destination before delegating to `bytes::merge` on the
adapter's backing byte buffer; the guard clears the destination on every exit
path (the `?` early return on a `bytes::merge` error, and the UTF-8 validation
failure) and is disarmed (`mem::forget`) only after `str::from_utf8` accepts
the replaced bytes. -/
def string_merge (wire_type : WireType) (value buf : List Nat) : MergeResult :=
  match bytes_merge wire_type value buf with
  | ⟨some e, _, rbuf⟩ => ⟨some e, [], rbuf⟩
  | ⟨none, newv, rbuf⟩ =>
    if utf8_valid newv then ⟨none, newv, rbuf⟩
    else ⟨some DecodeError.invalidUtf8, [], rbuf⟩

/-- `string::encode` from `src/encoding/string.rs` lines 54–62 for the
`String` adapter (whose `len` is its byte length and whose `as_bytes` is its
byte content): field key, varint of `value.len()`, then `value.as_bytes()`. -/
def string_encode (tag : Nat) (value : List Nat) : List Nat :=
  encode_key tag WireType.lengthDelimited ++ (encode_varint value.length ++ value)

/-- Modelled from the spec: `encoded_len_varint` of the crate's `encoding.rs`
(not in the provided sources) — the "varint-length size" of §6, i.e. the
number of bytes the varint encoder produces. -/
def encoded_len_varint (n : Nat) : Nat :=
  (encode_varint n).length

/-- Modelled from the spec: `key_len(tag)` of the crate's `encoding.rs` — the
"key size" of §6, the varint length of `tag << 3`. -/
def key_len (tag : Nat) : Nat :=
  encoded_len_varint (tag * 8)

/-- Modelled from the spec: `bytes::encoded_len` generated by the
`length_delimited!` macro invocation at `src/encoding/bytes.rs` line 47
("key size + varint-length size + payload size", spec §6). -/
def bytes_encoded_len (tag : Nat) (value : List Nat) : Nat :=
  key_len tag + encoded_len_varint value.length + value.length

/-- Modelled from the spec: `string::encoded_len` generated by the
`length_delimited!` macro invocation at `src/encoding/string.rs` line 111,
for the `String` adapter (`value.len()` is the byte length). -/
def string_encoded_len (tag : Nat) (value : List Nat) : Nat :=
  key_len tag + encoded_len_varint value.length + value.length

/-- The `bytes::Bytes` shared buffer (external crate, spec §3/§9 glossary:
"a reference-counted, slice-able, immutable-once-shared memory region"): a
view of `len` bytes starting at `off` inside a backing allocation `storage`.
Two views with different backing allocations may hold equal byte content. -/
structure SharedBytes where
  storage : List Nat
  off : Nat
  len : Nat
deriving DecidableEq, Repr

/-- The byte content a `SharedBytes` view exposes (its `as_ref` slice). -/
def SharedBytes.content (b : SharedBytes) : List Nat :=
  (b.storage.drop b.off).take b.len

/-- The internal well-formedness the `bytes` crate maintains: the view lies
inside its backing allocation. -/
def SharedBytes.wf (b : SharedBytes) : Prop :=
  b.off + b.len ≤ b.storage.length

/-- `Bytes::new()`: an empty view. -/
def SharedBytes.empty : SharedBytes :=
  ⟨[], 0, 0⟩

/-- A `Bytes` freshly built from owned contiguous bytes (`Bytes::from`,
`Bytes::from_static`, `Bytes::copy_from_slice`, `BytesMut::freeze`). -/
def SharedBytes.ofList (l : List Nat) : SharedBytes :=
  ⟨l, 0, l.length⟩

/-- `Bytes::len()`: the view's length field. -/
def SharedBytes.size (b : SharedBytes) : Nat :=
  b.len

/-- `Bytes::clear()`: truncate the view to length 0. -/
def SharedBytes.clearBytes (b : SharedBytes) : SharedBytes :=
  ⟨b.storage, b.off, 0⟩

/-- `ByteString` from `src/bytestring.rs` line 9: an immutable UTF-8 string
with `Bytes` as storage. -/
structure ByteString where
  bytes : SharedBytes
deriving DecidableEq, Repr

/-- The byte content of a `ByteString` (`as_ref::<[u8]>`, lines 68–72). -/
def ByteString.content (s : ByteString) : List Nat :=
  s.bytes.content

/-- `ByteString::new()` (lines 13–15): empty `Bytes`. -/
def ByteString.mk_new : ByteString :=
  ⟨SharedBytes.empty⟩

/-- `ByteString::clear()` (lines 26–28): clears the underlying `Bytes`. -/
def ByteString.clear (s : ByteString) : ByteString :=
  ⟨s.bytes.clearBytes⟩

/-- `ByteString::from_static(src: &'static str)` (lines 36–38): wraps the
`str`'s bytes; the argument's type guarantees it is valid UTF-8. -/
def ByteString.from_static (src : List Nat) : ByteString :=
  ⟨SharedBytes.ofList src⟩

/-- `From<String> for ByteString` (lines 104–109): wraps the `String`'s
bytes; the argument's type guarantees it is valid UTF-8. -/
def ByteString.from_string (value : List Nat) : ByteString :=
  ⟨SharedBytes.ofList value⟩

/-- `From<&str> for ByteString` (lines 111–116): copies the `str`'s bytes;
the argument's type guarantees it is valid UTF-8. -/
def ByteString.from_str (value : List Nat) : ByteString :=
  ⟨SharedBytes.ofList value⟩

/-- `TryFrom<&[u8]> for ByteString` (lines 118–126): validates with
`str::from_utf8`, then copies the slice.  `Except.error ()` stands for
`str::Utf8Error`. -/
def ByteString.try_from_slice (value : List Nat) : Except Unit ByteString :=
  if utf8_valid value then .ok ⟨SharedBytes.ofList value⟩ else .error ()

/-- `TryFrom<Vec<u8>> for ByteString` (lines 128–136): validates via
`String::from_utf8`, then wraps the buffer. -/
def ByteString.try_from_vec (value : List Nat) : Except Unit ByteString :=
  if utf8_valid value then .ok ⟨SharedBytes.ofList value⟩ else .error ()

/-- `TryFrom<Bytes> for ByteString` (lines 138–146): validates the view's
content with `str::from_utf8(value.as_ref())` and on success wraps the very
same `Bytes` value (sharing its storage, no copy). -/
def ByteString.try_from_bytes (value : SharedBytes) : Except Unit ByteString :=
  if utf8_valid value.content then .ok ⟨value⟩ else .error ()

/-- `TryFrom<BytesMut> for ByteString` (lines 148–156): validates, then
freezes the mutable buffer (modelled by its contiguous content). -/
def ByteString.try_from_bytes_mut (value : List Nat) : Except Unit ByteString :=
  if utf8_valid value then .ok ⟨SharedBytes.ofList value⟩ else .error ()

/-- `PartialEq` for `ByteString` via the blanket `impl<T: AsRef<str>>
PartialEq<T> for ByteString` (lines 62–66): compares `&self[..]` with
`other.as_ref()`, i.e. the two text contents. -/
def ByteString.beq (a b : ByteString) : Bool :=
  a.content == b.content

/-- Lexicographic comparison of byte slices, as Rust's `Ord` on `[u8]`
(a strict prefix is less). -/
def listCompare : List Nat → List Nat → Ordering
  | [], [] => .eq
  | [], _ :: _ => .lt
  | _ :: _, [] => .gt
  | a :: as, b :: bs =>
    if a < b then .lt else if b < a then .gt else listCompare as bs

/-- The derived `Ord` for `ByteString` (line 8) delegates to `Bytes`' `Ord`,
which compares the two content slices lexicographically. -/
def ByteString.cmp (a b : ByteString) : Ordering :=
  listCompare a.content b.content

/-- `Hash` for `ByteString` (lines 80–84) hashes `(**self)`, the `&str` view:
`str`'s `Hash` feeds the content bytes plus a trailing 0xFF into the hasher.
We model the hash as that byte stream — two values hash identically iff they
feed identical streams to the hasher. -/
def ByteString.hashStream (s : ByteString) : List Nat :=
  s.content ++ [255]

/-- `StringAdapter::len` for `ByteString` (`src/encoding/string.rs` lines
25–27): `self.bytes().len()`, the underlying `Bytes` length. -/
def ByteString.sa_len (s : ByteString) : Nat :=
  s.bytes.size

/-- `StringAdapter::as_bytes` for `ByteString` (`src/encoding/string.rs`
lines 21–23): `self.as_ref()`, the content slice. -/
def ByteString.sa_bytes (s : ByteString) : List Nat :=
  s.content

/-- `StringAdapter::len` for `String` (`src/encoding/string.rs` lines 45–47):
the string's byte length. -/
def String.sa_len (s : List Nat) : Nat :=
  s.length

/-- `StringAdapter::as_bytes` for `String` (`src/encoding/string.rs` lines
41–43): the string's bytes. -/
def String.sa_bytes (s : List Nat) : List Nat :=
  s

/-- `string::encode` (`src/encoding/string.rs` lines 54–62) for the
`ByteString` adapter: field key, varint of the adapter's `value.len()`, then
`value.as_bytes()`. -/
def string_encode_bytestring (tag : Nat) (value : ByteString) : List Nat :=
  encode_key tag WireType.lengthDelimited ++
    (encode_varint value.sa_len ++ value.sa_bytes)

/-- Modelled from the spec: `string::encoded_len` (macro invocation at
`src/encoding/string.rs` line 111) for the `ByteString` adapter, using the
adapter's `value.len()`. -/
def string_encoded_len_bytestring (tag : Nat) (value : ByteString) : Nat :=
  key_len tag + encoded_len_varint value.sa_len + value.sa_len

/-! ### Varint lemmas -/

/-- A number below `128 ^ (k + 1)` encodes in at most `k + 1` varint bytes. -/
theorem encode_varint_length_le (k : Nat) :
    ∀ n, n < 128 ^ (k + 1) → (encode_varint n).length ≤ k + 1 := by
  induction k with
  | zero =>
    intro n hn
    rw [encode_varint, if_pos (by simpa using hn)]
    simp
  | succ k ih =>
    intro n hn
    by_cases h : n < 128
    · rw [encode_varint, if_pos h]; simp
    · rw [encode_varint, if_neg h]
      have hdiv : n / 128 < 128 ^ (k + 1) := by
        rw [Nat.div_lt_iff_lt_mul (by omega)]
        calc n < 128 ^ (k + 2) := hn
        _ = 128 ^ (k + 1) * 128 := by ring
      simpa using ih (n / 128) hdiv

/-- The decode loop inverts `encode_varint`, at any loop position with enough
byte budget left, accumulating the payload at weight `128 ^ count`. -/
theorem decode_varint_loop_encode (n : Nat) :
    ∀ count acc rest, (encode_varint n).length + count ≤ 10 →
      decode_varint_loop (encode_varint n ++ rest) count acc =
        some ((acc + n * 128 ^ count) % 2 ^ 64, rest) := by
  induction n using Nat.strong_induction_on with
  | _ n ih =>
    intro count acc rest hlen
    by_cases h : n < 128
    · rw [encode_varint, if_pos h] at hlen ⊢
      simp only [List.length_cons, List.length_nil] at hlen
      rw [List.cons_append, decode_varint_loop]
      rw [if_neg (by omega), if_pos (by omega)]
      have : n % 128 = n := Nat.mod_eq_of_lt (by omega)
      rw [this]
      simp
    · rw [encode_varint, if_neg h] at hlen ⊢
      simp only [List.length_cons] at hlen
      rw [List.cons_append, decode_varint_loop]
      rw [if_neg (by omega), if_neg (by omega)]
      have hm : (n % 128 + 128) % 128 = n % 128 := by omega
      rw [hm]
      rw [ih (n / 128) (Nat.div_lt_self (by omega) (by omega))
        (count + 1) (acc + n % 128 * 128 ^ count) rest (by omega)]
      have key : acc + n % 128 * 128 ^ count + n / 128 * 128 ^ (count + 1)
          = acc + n * 128 ^ count := by
        calc acc + n % 128 * 128 ^ count + n / 128 * 128 ^ (count + 1)
            = acc + (n % 128 + 128 * (n / 128)) * 128 ^ count := by ring
          _ = acc + n * 128 ^ count := by rw [Nat.mod_add_div]
      rw [key]

/-- Varint round trip: decoding the encoding of any `u64`-range number yields
the number back and leaves the rest of the input untouched. -/
theorem decode_varint_encode (n : Nat) (rest : List Nat) (hn : n < 2 ^ 64) :
    decode_varint (encode_varint n ++ rest) = some (n, rest) := by
  have hlen : (encode_varint n).length ≤ 10 := by
    refine encode_varint_length_le 9 n (lt_of_lt_of_le hn ?_)
    norm_num
  rw [decode_varint, decode_varint_loop_encode n 0 0 rest (by omega)]
  simp only [Nat.zero_add, pow_zero, Nat.mul_one]
  rw [Nat.mod_eq_of_lt hn]

/-- Adding the 3 wire-type bits to a shifted tag does not change the varint
length of the field key. -/
theorem encode_varint_length_key (t w : Nat) (hw : w < 8) :
    (encode_varint (t * 8 + w)).length = (encode_varint (t * 8)).length := by
  have e1 : (t * 8 + w) / 128 = t / 16 := by
    rw [show t * 8 + w = w + 8 * t by ring, show (128 : ℕ) = 8 * 16 by norm_num,
      ← Nat.div_div_eq_div_mul, Nat.add_mul_div_left _ _ (by omega : 0 < 8),
      Nat.div_eq_of_lt hw, Nat.zero_add]
  have e2 : t * 8 / 128 = t / 16 := by
    rw [show t * 8 = 0 + 8 * t by ring, show (128 : ℕ) = 8 * 16 by norm_num,
      ← Nat.div_div_eq_div_mul, Nat.add_mul_div_left _ _ (by omega : 0 < 8)]
    simp
  by_cases h : t * 8 + w < 128
  · have u1 : encode_varint (t * 8 + w) = [t * 8 + w] := by
      rw [encode_varint, if_pos h]
    have u2 : encode_varint (t * 8) = [t * 8] := by
      rw [encode_varint, if_pos (by omega)]
    rw [u1, u2]
    simp
  · have u1 : encode_varint (t * 8 + w)
        = ((t * 8 + w) % 128 + 128) :: encode_varint ((t * 8 + w) / 128) := by
      rw [encode_varint, if_neg h]
    have u2 : encode_varint (t * 8)
        = (t * 8 % 128 + 128) :: encode_varint (t * 8 / 128) := by
      rw [encode_varint, if_neg (by omega)]
    rw [u1, u2]
    simp [e1, e2]

/-! ### SharedBytes lemmas -/

/-- A well-formed view exposes exactly `len` bytes. -/
theorem SharedBytes.length_content (b : SharedBytes) (hwf : b.wf) :
    b.content.length = b.len := by
  simp only [SharedBytes.content, List.length_take, List.length_drop]
  unfold SharedBytes.wf at hwf
  omega

/-- A view freshly built over owned bytes exposes exactly those bytes. -/
theorem SharedBytes.content_ofList (l : List Nat) :
    (SharedBytes.ofList l).content = l := by
  simp [SharedBytes.ofList, SharedBytes.content]

/-- A cleared view exposes no bytes. -/
theorem SharedBytes.content_clearBytes (b : SharedBytes) :
    b.clearBytes.content = [] := by
  simp [SharedBytes.clearBytes, SharedBytes.content]

/-! ### Merge lemmas -/

/-- Merging a well-formed length-delimited payload (`varint(len)` followed by
exactly `len` bytes) succeeds, replaces the destination with the payload and
consumes the whole input. -/
theorem bytes_merge_varint_payload (value payload extra : List Nat)
    (h : payload.length < 2 ^ 64) :
    bytes_merge WireType.lengthDelimited value
        (encode_varint payload.length ++ (payload ++ extra))
      = ⟨none, payload, extra⟩ := by
  unfold bytes_merge
  rw [if_neg (by simp)]
  simp only [decode_varint_encode payload.length (payload ++ extra) h]
  rw [if_neg (by simp), List.take_left, List.drop_left]

/-- `listCompare` reports `eq` exactly on equal lists. -/
theorem listCompare_eq_iff : ∀ l1 l2 : List Nat,
    listCompare l1 l2 = Ordering.eq ↔ l1 = l2 := by
  intro l1
  induction l1 with
  | nil => intro l2; cases l2 <;> simp [listCompare]
  | cons a as ih =>
    intro l2
    cases l2 with
    | nil => simp [listCompare]
    | cons b bs =>
      show (if a < b then Ordering.lt else if b < a then Ordering.gt
        else listCompare as bs) = Ordering.eq ↔ a :: as = b :: bs
      by_cases h1 : a < b
      · rw [if_pos h1]
        simp only [List.cons.injEq]
        constructor
        · intro h; cases h
        · rintro ⟨rfl, -⟩; omega
      · rw [if_neg h1]
        by_cases h2 : b < a
        · rw [if_pos h2]
          simp only [List.cons.injEq]
          constructor
          · intro h; cases h
          · rintro ⟨rfl, -⟩; omega
        · rw [if_neg h2]
          have hab : a = b := by omega
          subst hab
          simp [ih bs]

/-- Specialisation of `bytes_merge_varint_payload` with no trailing input. -/
theorem bytes_merge_varint_payload_nil (value payload : List Nat)
    (h : payload.length < 2 ^ 64) :
    bytes_merge WireType.lengthDelimited value
        (encode_varint payload.length ++ payload)
      = ⟨none, payload, []⟩ := by
  have := bytes_merge_varint_payload value payload [] h
  simpa using this

/-! ### Claim C1 -/

/-- C1: for every string-typed destination, wire type and input buffer, if the
string-variant `merge` returns an error for any reason (wire-type mismatch,
malformed length varint, buffer underflow during the byte-level merge, or
failed UTF-8 validation of the replaced bytes), the destination string's
content is empty after the call, regardless of its content before it. -/
theorem string_merge_error_clears (wire_type : WireType) (value buf : List Nat)
    (e : DecodeError) (h : (string_merge wire_type value buf).err = some e) :
    (string_merge wire_type value buf).value = [] := by
  unfold string_merge at h ⊢
  rcases hbm : bytes_merge wire_type value buf with ⟨err, newv, rbuf⟩
  rw [hbm] at h
  cases err with
  | some e2 => rfl
  | none =>
    dsimp only at h ⊢
    by_cases hu : utf8_valid newv
    · rw [if_pos hu] at h
      exact absurd h (by simp)
    · rw [if_neg hu]

/-- Witness for C1: a length-delimited payload `[0xFF]` is not UTF-8; merging
it into the non-empty destination `[0x68]` errors and leaves the destination
empty. -/
theorem string_merge_error_clears_witness :
    (string_merge WireType.lengthDelimited [104] [1, 255]).err
        = some DecodeError.invalidUtf8 ∧
    (string_merge WireType.lengthDelimited [104] [1, 255]).value = [] :=
  ⟨by decide,
    string_merge_error_clears WireType.lengthDelimited [104] [1, 255]
      DecodeError.invalidUtf8 (by decide)⟩

/-! ### Claim C4 -/

/-- C4: for every input buffer whose length varint decodes to `len`, if `len`
is strictly greater than the number of bytes remaining after the varint, the
byte-level `merge` fails with `BufferUnderflow`, leaving the destination
unchanged. -/
theorem bytes_merge_underflow (value buf : List Nat) (len : Nat)
    (rest : List Nat) (hdv : decode_varint buf = some (len, rest))
    (hlen : rest.length < len) :
    bytes_merge WireType.lengthDelimited value buf
      = ⟨some DecodeError.bufferUnderflow, value, rest⟩ := by
  unfold bytes_merge
  rw [if_neg (by simp)]
  simp only [hdv]
  rw [if_pos hlen]

/-- Witness for C4: declared length 5 with only 2 bytes remaining fails with
`BufferUnderflow`. -/
theorem bytes_merge_underflow_witness :
    decode_varint [5, 1, 2] = some (5, [1, 2]) ∧
    bytes_merge WireType.lengthDelimited [9, 9] [5, 1, 2]
      = ⟨some DecodeError.bufferUnderflow, [9, 9], [1, 2]⟩ :=
  ⟨by decide, bytes_merge_underflow [9, 9] [5, 1, 2] 5 [1, 2] (by decide) (by decide)⟩

/-! ### Claim C5 -/

/-- C5: for every byte-buffer destination and input, whenever the byte-level
`merge` returns an error (wire-type mismatch, malformed varint, or buffer
underflow), the destination's content is exactly what it was before the call —
it is never partially overwritten on a failure path. -/
theorem bytes_merge_error_preserves (wire_type : WireType)
    (value buf : List Nat) (e : DecodeError)
    (h : (bytes_merge wire_type value buf).err = some e) :
    (bytes_merge wire_type value buf).value = value := by
  unfold bytes_merge at h ⊢
  by_cases hwt : wire_type ≠ WireType.lengthDelimited
  · rw [if_pos hwt]
  · rw [if_neg hwt] at h ⊢
    rcases hdv : decode_varint buf with - | ⟨len, rest⟩
    · simp only [hdv]
    · simp only [hdv] at h ⊢
      by_cases hlen : rest.length < len
      · rw [if_pos hlen]
      · rw [if_neg hlen] at h
        exact absurd h (by simp)

/-- Witness for C5: a wire-type mismatch errors and leaves the destination
`[7, 8]` untouched. -/
theorem bytes_merge_error_preserves_witness :
    (bytes_merge WireType.varint [7, 8] [3, 1, 2, 3]).err
        = some DecodeError.wireTypeMismatch ∧
    (bytes_merge WireType.varint [7, 8] [3, 1, 2, 3]).value = [7, 8] :=
  ⟨by decide,
    bytes_merge_error_preserves WireType.varint [7, 8] [3, 1, 2, 3]
      DecodeError.wireTypeMismatch (by decide)⟩

/-! ### Claim C2 -/

/-- C2: for every tag in the valid field-number range and every byte sequence
`b` (respectively every valid UTF-8 string `s`), encoding with `encode` and
then decoding the produced bytes (the part after the field key) with `merge`
at wire type `LengthDelimited` into any destination succeeds and yields
exactly `b` (resp. `s`), consuming the whole input. -/
theorem encode_merge_roundtrip (tag : Nat) (value value2 b s : List Nat)
    (htag1 : 1 ≤ tag) (htag2 : tag ≤ 2 ^ 29 - 1)
    (hb : b.length < 2 ^ 64) (hs : s.length < 2 ^ 64)
    (hutf : utf8_valid s = true) :
    bytes_merge WireType.lengthDelimited value
        ((bytes_encode tag b).drop (encode_key tag WireType.lengthDelimited).length)
      = ⟨none, b, []⟩ ∧
    string_merge WireType.lengthDelimited value2
        ((string_encode tag s).drop (encode_key tag WireType.lengthDelimited).length)
      = ⟨none, s, []⟩ := by
  constructor
  · rw [bytes_encode, List.drop_left]
    exact bytes_merge_varint_payload_nil value b hb
  · rw [string_encode, List.drop_left]
    unfold string_merge
    simp only [bytes_merge_varint_payload_nil value2 s hs]
    rw [if_pos hutf]

/-- Witness for C2: tag 5 with bytes `[1,2,3]` and tag 5 with the string
"hé" (bytes `[0x68, 0xC3, 0xA9]`) both round-trip. -/
theorem encode_merge_roundtrip_witness :
    bytes_merge WireType.lengthDelimited [9]
        ((bytes_encode 5 [1, 2, 3]).drop (encode_key 5 WireType.lengthDelimited).length)
      = ⟨none, [1, 2, 3], []⟩ ∧
    string_merge WireType.lengthDelimited [7]
        ((string_encode 5 [104, 195, 169]).drop (encode_key 5 WireType.lengthDelimited).length)
      = ⟨none, [104, 195, 169], []⟩ :=
  encode_merge_roundtrip 5 [9] [7] [1, 2, 3] [104, 195, 169]
    (by decide) (by decide) (by decide) (by decide) (by decide)

/-! ### Claim C3 -/

/-- C3: a successful byte-level `merge` replaces the destination's entire
content with exactly the `len` bytes read from the input, whatever the prior
content (first conjunct); consequently, decoding an input that carries the
same non-repeated field twice — payload `v1`, then the field's key again and
payload `v2` — ends with the destination equal to `v2` (last one wins), for
all `v1 ≠ v2` (second and third conjuncts: the first `merge` leaves exactly
the re-encoded field in the input; after the outer decoder consumes its key,
the second `merge` overwrites `v1` with `v2`). -/
theorem merge_replaces_last_wins (tag : Nat) (value buf v1 v2 : List Nat)
    (len : Nat) (rest : List Nat)
    (htag1 : 1 ≤ tag) (htag2 : tag ≤ 2 ^ 29 - 1)
    (hne : v1 ≠ v2) (h1 : v1.length < 2 ^ 64) (h2 : v2.length < 2 ^ 64)
    (hdv : decode_varint buf = some (len, rest)) (hlen : len ≤ rest.length) :
    bytes_merge WireType.lengthDelimited value buf
      = ⟨none, rest.take len, rest.drop len⟩ ∧
    bytes_merge WireType.lengthDelimited value
        (encode_varint v1.length ++ (v1 ++ bytes_encode tag v2))
      = ⟨none, v1, bytes_encode tag v2⟩ ∧
    bytes_merge WireType.lengthDelimited v1
        ((bytes_encode tag v2).drop (encode_key tag WireType.lengthDelimited).length)
      = ⟨none, v2, []⟩ := by
  refine ⟨?_, ?_, ?_⟩
  · unfold bytes_merge
    rw [if_neg (by simp)]
    simp only [hdv]
    rw [if_neg (by omega)]
  · exact bytes_merge_varint_payload value v1 (bytes_encode tag v2) h1
  · rw [bytes_encode, List.drop_left]
    exact bytes_merge_varint_payload_nil v1 v2 h2

/-- Witness for C3: merging `[1, 42]` into the non-empty destination `[5]`
replaces it with `[42]`; a doubly-encoded field with `v1 = [1]` then
`v2 = [2]` decodes to `[2]`. -/
theorem merge_replaces_last_wins_witness :
    bytes_merge WireType.lengthDelimited [5] [1, 42] = ⟨none, [42], []⟩ ∧
    bytes_merge WireType.lengthDelimited [5]
        (encode_varint 1 ++ ([1] ++ bytes_encode 3 [2]))
      = ⟨none, [1], bytes_encode 3 [2]⟩ ∧
    bytes_merge WireType.lengthDelimited [1]
        ((bytes_encode 3 [2]).drop (encode_key 3 WireType.lengthDelimited).length)
      = ⟨none, [2], []⟩ :=
  merge_replaces_last_wins 3 [5] [1, 42] [1] [2] 1 [42]
    (by decide) (by decide) (by decide) (by decide) (by decide) (by decide) (by decide)

/-! ### Claim C6 -/

/-- C6: for every tag and every value (byte sequence, string, or a
`ByteString` behind the string adapter), `encoded_len(tag, v)` equals the
exact number of bytes `encode(tag, v, out)` appends to the output. -/
theorem encoded_len_matches_encode :
    (∀ tag v, bytes_encoded_len tag v = (bytes_encode tag v).length) ∧
    (∀ tag s, string_encoded_len tag s = (string_encode tag s).length) ∧
    (∀ tag (bs : ByteString), bs.bytes.wf →
      string_encoded_len_bytestring tag bs = (string_encode_bytestring tag bs).length) := by
  refine ⟨?_, ?_, ?_⟩
  · intro tag v
    unfold bytes_encoded_len bytes_encode encode_key key_len encoded_len_varint
    simp only [List.length_append, WireType.toNat]
    rw [encode_varint_length_key tag 2 (by omega)]
    omega
  · intro tag s
    unfold string_encoded_len string_encode encode_key key_len encoded_len_varint
    simp only [List.length_append, WireType.toNat]
    rw [encode_varint_length_key tag 2 (by omega)]
    omega
  · intro tag bs hwf
    unfold string_encoded_len_bytestring string_encode_bytestring encode_key
      key_len encoded_len_varint ByteString.sa_len ByteString.sa_bytes
      ByteString.content SharedBytes.size
    simp only [List.length_append, WireType.toNat]
    rw [encode_varint_length_key tag 2 (by omega)]
    have hc := SharedBytes.length_content bs.bytes hwf
    omega

/-- Witness for C6: concrete length checks for tag 5 bytes, tag 1 string, and
a tag 7 `ByteString` sliced out of the middle of a larger allocation. -/
theorem encoded_len_matches_encode_witness :
    bytes_encoded_len 5 [1, 2, 3] = (bytes_encode 5 [1, 2, 3]).length ∧
    string_encoded_len 1 [104, 195, 169] = (string_encode 1 [104, 195, 169]).length ∧
    string_encoded_len_bytestring 7 ⟨⟨[0, 104, 105, 0], 1, 2⟩⟩
      = (string_encode_bytestring 7 ⟨⟨[0, 104, 105, 0], 1, 2⟩⟩).length :=
  ⟨encoded_len_matches_encode.1 5 [1, 2, 3],
    encoded_len_matches_encode.2.1 1 [104, 195, 169],
    encoded_len_matches_encode.2.2 7 ⟨⟨[0, 104, 105, 0], 1, 2⟩⟩
      (by norm_num [SharedBytes.wf])⟩

/-! ### Claim C7 -/

/-- C7: the byte content of a `ByteString` is valid UTF-8 after every safe
construction path — `new`, `from_static`, `From<String>`, `From<&str>` (whose
arguments are valid UTF-8 by their Rust types), every `TryFrom` that returns
`Ok` (the fixed-size-array impls delegate to the `&[u8]` one) — and after the
safe mutation `clear`, so the `as_str`/`Deref` view is always well-defined. -/
theorem byteString_utf8_invariant :
    utf8_valid ByteString.mk_new.content = true ∧
    (∀ s, utf8_valid s = true → utf8_valid (ByteString.from_static s).content = true) ∧
    (∀ s, utf8_valid s = true → utf8_valid (ByteString.from_string s).content = true) ∧
    (∀ s, utf8_valid s = true → utf8_valid (ByteString.from_str s).content = true) ∧
    (∀ v r, ByteString.try_from_slice v = .ok r → utf8_valid r.content = true) ∧
    (∀ v r, ByteString.try_from_vec v = .ok r → utf8_valid r.content = true) ∧
    (∀ b r, ByteString.try_from_bytes b = .ok r → utf8_valid r.content = true) ∧
    (∀ v r, ByteString.try_from_bytes_mut v = .ok r → utf8_valid r.content = true) ∧
    (∀ s, utf8_valid (ByteString.clear s).content = true) := by
  have hofList : ∀ l, (ByteString.mk ((SharedBytes.ofList l))).content = l := by
    intro l
    unfold ByteString.content
    exact SharedBytes.content_ofList l
  refine ⟨?_, ?_, ?_, ?_, ?_, ?_, ?_, ?_, ?_⟩
  · rfl
  · intro s hs
    unfold ByteString.from_static
    rw [hofList s, hs]
  · intro s hs
    unfold ByteString.from_string
    rw [hofList s, hs]
  · intro s hs
    unfold ByteString.from_str
    rw [hofList s, hs]
  · intro v r h
    unfold ByteString.try_from_slice at h
    by_cases hv : utf8_valid v
    · rw [if_pos hv] at h
      cases h
      rw [hofList v]
      exact hv
    · rw [if_neg hv] at h
      exact absurd h (by simp)
  · intro v r h
    unfold ByteString.try_from_vec at h
    by_cases hv : utf8_valid v
    · rw [if_pos hv] at h
      cases h
      rw [hofList v]
      exact hv
    · rw [if_neg hv] at h
      exact absurd h (by simp)
  · intro b r h
    unfold ByteString.try_from_bytes at h
    by_cases hv : utf8_valid b.content
    · rw [if_pos hv] at h
      cases h
      exact hv
    · rw [if_neg hv] at h
      exact absurd h (by simp)
  · intro v r h
    unfold ByteString.try_from_bytes_mut at h
    by_cases hv : utf8_valid v
    · rw [if_pos hv] at h
      cases h
      rw [hofList v]
      exact hv
    · rw [if_neg hv] at h
      exact absurd h (by simp)
  · intro s
    unfold ByteString.clear ByteString.content
    rw [SharedBytes.content_clearBytes]
    rfl

/-- Witness for C7: `from_static` on "hi", a successful `TryFrom<Bytes>` on a
mid-allocation slice, and `clear` on a value holding non-UTF-8 storage all
yield valid-UTF-8 content. -/
theorem byteString_utf8_invariant_witness :
    utf8_valid (ByteString.from_static [104, 105]).content = true ∧
    utf8_valid (ByteString.mk ⟨[255, 104, 105], 1, 2⟩).content = true ∧
    utf8_valid (ByteString.clear ⟨⟨[255, 255], 0, 2⟩⟩).content = true :=
  ⟨byteString_utf8_invariant.2.1 [104, 105] (by decide),
    byteString_utf8_invariant.2.2.2.2.2.2.1 ⟨[255, 104, 105], 1, 2⟩
      (ByteString.mk ⟨[255, 104, 105], 1, 2⟩) (by rfl),
    byteString_utf8_invariant.2.2.2.2.2.2.2.2 ⟨⟨[255, 255], 0, 2⟩⟩⟩

/-! ### Claim C8 -/

/-- C8: `ByteString` equality holds iff the text contents are equal, the
`Ord` comparison is exactly the lexicographic comparison of the contents
(and in particular reports `eq` iff the contents are equal), and equal
contents feed identical byte streams to the hasher — none of these depend on
the identity of the backing allocation, since all three are functions of the
content alone. -/
theorem byteString_eq_ord_hash_content (a b : ByteString) :
    (ByteString.beq a b = true ↔ a.content = b.content) ∧
    ByteString.cmp a b = listCompare a.content b.content ∧
    (ByteString.cmp a b = Ordering.eq ↔ a.content = b.content) ∧
    (a.content = b.content → ByteString.hashStream a = ByteString.hashStream b) := by
  refine ⟨?_, rfl, ?_, ?_⟩
  · unfold ByteString.beq
    exact beq_iff_eq ..
  · unfold ByteString.cmp
    exact listCompare_eq_iff a.content b.content
  · intro h
    unfold ByteString.hashStream
    rw [h]

/-- Witness for C8: two `ByteString`s with different backing allocations
(owned "hi" at offset 0 vs. a slice of a larger region at offset 1) but equal
content compare equal, order as `eq`, and hash identically. -/
theorem byteString_eq_ord_hash_content_witness :
    ByteString.beq ⟨⟨[104, 105], 0, 2⟩⟩ ⟨⟨[0, 104, 105, 0], 1, 2⟩⟩ = true ∧
    ByteString.cmp ⟨⟨[104, 105], 0, 2⟩⟩ ⟨⟨[0, 104, 105, 0], 1, 2⟩⟩ = Ordering.eq ∧
    ByteString.hashStream ⟨⟨[104, 105], 0, 2⟩⟩
      = ByteString.hashStream ⟨⟨[0, 104, 105, 0], 1, 2⟩⟩ :=
  ⟨(byteString_eq_ord_hash_content ⟨⟨[104, 105], 0, 2⟩⟩ ⟨⟨[0, 104, 105, 0], 1, 2⟩⟩).1.mpr
      (by decide),
    (byteString_eq_ord_hash_content ⟨⟨[104, 105], 0, 2⟩⟩ ⟨⟨[0, 104, 105, 0], 1, 2⟩⟩).2.2.1.mpr
      (by decide),
    (byteString_eq_ord_hash_content ⟨⟨[104, 105], 0, 2⟩⟩ ⟨⟨[0, 104, 105, 0], 1, 2⟩⟩).2.2.2
      (by decide)⟩

/-! ### Claim C9 -/

/-- C9: constructing a `ByteString` from a `Bytes` region with the validating
`TryFrom<Bytes>` fails with an encoding error exactly when the region's
content is not valid UTF-8; on success the result's byte content equals the
input's and the very same `Bytes` value (storage included) is wrapped, with
no copy. -/
theorem try_from_bytes_validates (b : SharedBytes) :
    (ByteString.try_from_bytes b = .error () ↔ utf8_valid b.content = false) ∧
    (∀ r, ByteString.try_from_bytes b = .ok r →
      r.content = b.content ∧ r.bytes = b) := by
  constructor
  · unfold ByteString.try_from_bytes
    by_cases hv : utf8_valid b.content
    · rw [if_pos hv]
      simp [hv]
    · rw [if_neg hv]
      simp [hv]
  · intro r h
    unfold ByteString.try_from_bytes at h
    by_cases hv : utf8_valid b.content
    · rw [if_pos hv] at h
      cases h
      exact ⟨rfl, rfl⟩
    · rw [if_neg hv] at h
      exact absurd h (by simp)

/-- Witness for C9: the invalid region `[0xFF]` is rejected, and a valid
mid-allocation slice is accepted, sharing its storage. -/
theorem try_from_bytes_validates_witness :
    (ByteString.try_from_bytes ⟨[255], 0, 1⟩ = .error ()
      ↔ utf8_valid (SharedBytes.content ⟨[255], 0, 1⟩) = false) ∧
    ((ByteString.mk ⟨[0, 104, 105, 0], 1, 2⟩).content
        = SharedBytes.content ⟨[0, 104, 105, 0], 1, 2⟩ ∧
      (ByteString.mk ⟨[0, 104, 105, 0], 1, 2⟩).bytes = ⟨[0, 104, 105, 0], 1, 2⟩) :=
  ⟨(try_from_bytes_validates ⟨[255], 0, 1⟩).1,
    (try_from_bytes_validates ⟨[0, 104, 105, 0], 1, 2⟩).2
      (ByteString.mk ⟨[0, 104, 105, 0], 1, 2⟩) (by rfl)⟩

/-! ### Claim C10 -/

/-- C10: for both string adapter implementations (`String` and `ByteString`),
the adapter's `len` equals the byte length of its `as_bytes` view; therefore
the varint length prefix written by the string-variant `encode` equals the
number of payload bytes actually appended after it. -/
theorem string_adapter_len_matches_bytes :
    (∀ s, String.sa_len s = (String.sa_bytes s).length) ∧
    (∀ bs : ByteString, bs.bytes.wf → bs.sa_len = bs.sa_bytes.length) ∧
    (∀ tag s, string_encode tag s
      = encode_key tag WireType.lengthDelimited
          ++ (encode_varint (String.sa_bytes s).length ++ String.sa_bytes s)) ∧
    (∀ tag (bs : ByteString), bs.bytes.wf → string_encode_bytestring tag bs
      = encode_key tag WireType.lengthDelimited
          ++ (encode_varint bs.sa_bytes.length ++ bs.sa_bytes)) := by
  have hlen : ∀ bs : ByteString, bs.bytes.wf → bs.sa_len = bs.sa_bytes.length := by
    intro bs hwf
    unfold ByteString.sa_len ByteString.sa_bytes ByteString.content SharedBytes.size
    rw [SharedBytes.length_content bs.bytes hwf]
  refine ⟨fun s => rfl, hlen, fun tag s => rfl, ?_⟩
  intro tag bs hwf
  unfold string_encode_bytestring
  rw [hlen bs hwf]

/-- Witness for C10: a `ByteString` slicing two bytes out of a four-byte
allocation has adapter length 2, the length of its byte view, and its
encoding at tag 1 carries that length as the varint prefix. -/
theorem string_adapter_len_matches_bytes_witness :
    (ByteString.mk ⟨[0, 104, 105, 0], 1, 2⟩).sa_len
        = (ByteString.mk ⟨[0, 104, 105, 0], 1, 2⟩).sa_bytes.length ∧
    string_encode_bytestring 1 ⟨⟨[0, 104, 105, 0], 1, 2⟩⟩
      = encode_key 1 WireType.lengthDelimited
          ++ (encode_varint (ByteString.mk ⟨[0, 104, 105, 0], 1, 2⟩).sa_bytes.length
              ++ (ByteString.mk ⟨[0, 104, 105, 0], 1, 2⟩).sa_bytes) :=
  ⟨string_adapter_len_matches_bytes.2.1 ⟨⟨[0, 104, 105, 0], 1, 2⟩⟩
      (by norm_num [SharedBytes.wf]),
    string_adapter_len_matches_bytes.2.2.2 1 ⟨⟨[0, 104, 105, 0], 1, 2⟩⟩
      (by norm_num [SharedBytes.wf])⟩

end ProstCodec
